import Mathlib

/-!
# Verification of the color-channels split/merge program

Shallow embedding of the final snapshot of the `color-channels` Go program:
the 16-bit concurrent split pipeline (`split.go`), the 16-bit merge
functions with alpha support (`merge` source file), and the command-line
color-space resolution (`main` source file).  Real-valued channel scalars
are modelled as rationals; Go's `uint16(f * 65535.0)` conversion truncates
toward zero, which on the nonnegative values that reach it is the floor.

External collaborators (the go-colorful conversion library and the Go
standard library's `image/color` transforms) are not part of the
repository; where a claim depends only on how the program wraps them, the
external conversion appears as an explicit function parameter.
-/

namespace ColorChannels

/-- `toGrayVal` from `split.go` (lines 23-31): converts a channel scalar to
a 16-bit grayscale sample, clamping values below 0 to sample 0 and values
above 1 to sample 65535.  Go's `uint16(f * 65535.0)` cast truncates toward
zero; the value reaching that branch is in `[0, 1]`, so this is the floor. -/
def toGrayVal (f : ℚ) : ℕ :=
  if f < 0 then 0
  else if f > 1 then 65535
  else (⌊f * 65535⌋).toNat

/-- Decoding of a unit-range channel on the merge path, e.g. `MergeXyy`:
`float64(sample) / 65535.0`. -/
def decodeUnit (n : ℕ) : ℚ := (n : ℚ) / 65535

/-- Decoding of a `[-1, 1]`-range channel on the merge path, e.g. the `a`
and `b` components in `MergeLab`: `float64(sample)*2.0/65535.0 - 1.0`. -/
def decodeSigned (n : ℕ) : ℚ := (n : ℚ) * 2 / 65535 - 1

/-- Decoding of the hue channel on the merge path, e.g. `MergeHCL`:
`float64(sample) * 360.0 / 65535.0`. -/
def decodeHue (n : ℕ) : ℚ := (n : ℚ) * 360 / 65535

/-- In the non-clamping branch the sample is the floor of `f * 65535`,
bracketed by `f * 65535 - 1` and `f * 65535`. -/
lemma toGrayVal_bounds {f : ℚ} (h0 : 0 ≤ f) (h1 : f ≤ 1) :
    f * 65535 - 1 < (toGrayVal f : ℚ) ∧ (toGrayVal f : ℚ) ≤ f * 65535 := by
  unfold toGrayVal
  rw [if_neg (by linarith), if_neg (by linarith)]
  have hnn : (0 : ℚ) ≤ f * 65535 := by positivity
  have hfl : (0 : ℤ) ≤ ⌊f * 65535⌋ := Int.floor_nonneg.mpr hnn
  have hcast : ((⌊f * 65535⌋.toNat : ℕ) : ℚ) = ((⌊f * 65535⌋ : ℤ) : ℚ) := by
    exact_mod_cast congrArg (fun z : ℤ => (z : ℚ)) (Int.toNat_of_nonneg hfl)
  rw [hcast]
  exact ⟨Int.sub_one_lt_floor _, Int.floor_le _⟩

/-- **C1.** For every channel scalar in the model's declared range, decoding
the encoded 16-bit sample reproduces the scalar to within one quantization
step of the 16-bit codec: unit-range channels (`toGrayVal` directly, decoded
as `sample/65535`) round-trip within `1/65535`; signed `[-1,1]` channels
(encoded as `(v+1)/2`, decoded as `sample*2/65535 - 1`, as in
`SplitLab`/`MergeLab`) within `2/65535`; hue (encoded as `h/360`, decoded as
`sample*360/65535`, as in `SplitHCL`/`MergeHCL`) within `360/65535`. -/
theorem codec_roundtrip (s : ℚ) :
    (0 ≤ s → s ≤ 1 → |decodeUnit (toGrayVal s) - s| ≤ 1 / 65535) ∧
    (-1 ≤ s → s ≤ 1 → |decodeSigned (toGrayVal ((s + 1) / 2)) - s| ≤ 2 / 65535) ∧
    (0 ≤ s → s < 360 → |decodeHue (toGrayVal (s / 360)) - s| ≤ 360 / 65535) := by
  refine ⟨fun h0 h1 => ?_, fun h0 h1 => ?_, fun h0 h1 => ?_⟩
  · obtain ⟨hlo, hhi⟩ := toGrayVal_bounds h0 h1
    rw [decodeUnit, abs_le]
    constructor <;> linarith
  · obtain ⟨hlo, hhi⟩ := toGrayVal_bounds (f := (s + 1) / 2) (by linarith) (by linarith)
    rw [decodeSigned, abs_le]
    constructor <;> linarith
  · obtain ⟨hlo, hhi⟩ := toGrayVal_bounds (f := s / 360) (by linarith) (by linarith)
    rw [decodeHue, abs_le]
    constructor <;> linarith

/-- Witness for `codec_roundtrip` at the concrete scalar `1/3`. -/
theorem codec_roundtrip_witness :
    ((0 : ℚ) ≤ 1 / 3 ∧ (1 : ℚ) / 3 ≤ 1) ∧
    |decodeUnit (toGrayVal (1 / 3)) - 1 / 3| ≤ 1 / 65535 ∧
    |decodeSigned (toGrayVal ((1 / 3 + 1) / 2)) - 1 / 3| ≤ 2 / 65535 ∧
    |decodeHue (toGrayVal (1 / 3 / 360)) - 1 / 3| ≤ 360 / 65535 :=
  ⟨⟨by norm_num, by norm_num⟩,
   (codec_roundtrip (1 / 3)).1 (by norm_num) (by norm_num),
   (codec_roundtrip (1 / 3)).2.1 (by norm_num) (by norm_num),
   (codec_roundtrip (1 / 3)).2.2 (by norm_num) (by norm_num)⟩

/-- **C2.** `toGrayVal` clamps: any scalar below 0 encodes to sample 0, any
scalar above 1 encodes to the maximum sample 65535, and every result lies in
`0..65535`; being a total function, it raises no error on out-of-range
input. -/
theorem toGrayVal_clamps (f : ℚ) :
    (f < 0 → toGrayVal f = 0) ∧
    (f > 1 → toGrayVal f = 65535) ∧
    toGrayVal f ≤ 65535 := by
  refine ⟨fun hlt => ?_, fun hgt => ?_, ?_⟩
  · rw [toGrayVal, if_pos hlt]
  · rw [toGrayVal, if_neg (by linarith), if_pos hgt]
  · unfold toGrayVal
    split_ifs with h1 h2
    · omega
    · omega
    · have hmul : f * 65535 ≤ 65535 := by nlinarith [not_lt.mp h2]
      have hle : ⌊f * 65535⌋ ≤ ⌊(65535 : ℚ)⌋ := Int.floor_le_floor hmul
      have h65 : ⌊(65535 : ℚ)⌋ = 65535 := by norm_num
      omega

/-- Witness for `toGrayVal_clamps` at the concrete scalars `-2` and `2`. -/
theorem toGrayVal_clamps_witness :
    ((-2 : ℚ) < 0 ∧ toGrayVal (-2) = 0) ∧ ((2 : ℚ) > 1 ∧ toGrayVal 2 = 65535) :=
  ⟨⟨by norm_num, (toGrayVal_clamps (-2)).1 (by norm_num)⟩,
   ⟨by norm_num, (toGrayVal_clamps 2).2.1 (by norm_num)⟩⟩

/-- An RGB color with rational components, modelling `colorful.Color` from
the go-colorful library (the common currency of the conversion functions). -/
structure Color where
  R : ℚ
  G : ℚ
  B : ℚ
deriving DecidableEq

/-- Models go-colorful's `clamp01`: `math.Max(0.0, math.Min(v, 1.0))`. -/
def clamp01 (v : ℚ) : ℚ := max 0 (min v 1)

/-- Models go-colorful's `Color.Clamped`: clamps each RGB component into
`[0, 1]`.  The merge functions invoke this on every conversion result. -/
def clamped (c : Color) : Color := ⟨clamp01 c.R, clamp01 c.G, clamp01 c.B⟩

/-- A color has all components in `[0, 1]`, i.e. is a representable
(in-gamut) RGB color. -/
def inGamut (c : Color) : Prop :=
  (0 ≤ c.R ∧ c.R ≤ 1) ∧ (0 ≤ c.G ∧ c.G ≤ 1) ∧ (0 ≤ c.B ∧ c.B ≤ 1)

/-- Per-pixel body of `MergeXyy` (merge source, lines 62-75): decode the
three samples as unit-range scalars, apply the external `colorful.Xyy`
conversion (here the parameter `xyy`), and clamp. -/
def mergeXyyPixel (xyy : ℚ → ℚ → ℚ → Color) (s0 s1 s2 : ℕ) : Color :=
  clamped (xyy (decodeUnit s0) (decodeUnit s1) (decodeUnit s2))

/-- Per-pixel body of `MergeHCL` (merge source, lines 14-27): decode hue as
`sample*360/65535` and chroma/luminance as unit-range scalars, apply the
external `colorful.HclWhiteRef` conversion (the parameter `hclWhiteRef`)
with the white point, and clamp. -/
def mergeHCLPixel (hclWhiteRef : ℚ → ℚ → ℚ → ℚ × ℚ × ℚ → Color)
    (wref : ℚ × ℚ × ℚ) (s0 s1 s2 : ℕ) : Color :=
  clamped (hclWhiteRef (decodeHue s0) (decodeUnit s1) (decodeUnit s2) wref)

/-- `clamp01` always lands in `[0, 1]`. -/
lemma clamp01_mem (v : ℚ) : 0 ≤ clamp01 v ∧ clamp01 v ≤ 1 :=
  ⟨le_max_left 0 _, max_le (by norm_num) (min_le_right v 1)⟩

/-- `clamped` always produces an in-gamut color. -/
lemma clamped_inGamut (c : Color) : inGamut (clamped c) :=
  ⟨clamp01_mem c.R, clamp01_mem c.G, clamp01_mem c.B⟩

/-- **C3.** For every combination of input buffer samples fed to a merge —
whatever channel components they decode to, and whatever RGB triple the
external inverse conversion returns for them (the conversion is universally
quantified, so even out-of-range components such as `x = y = Y = 0.5` under
xyy or hue 400 under hcl are covered) — the per-pixel merge body produces a
clamped, valid in-gamut RGB color.  Totality of the definitions models the
absence of errors or crashes. -/
theorem merge_always_in_gamut (xyy : ℚ → ℚ → ℚ → Color)
    (hclWhiteRef : ℚ → ℚ → ℚ → ℚ × ℚ × ℚ → Color) (wref : ℚ × ℚ × ℚ)
    (s0 s1 s2 t0 t1 t2 : ℕ) :
    inGamut (mergeXyyPixel xyy s0 s1 s2) ∧
    inGamut (mergeHCLPixel hclWhiteRef wref t0 t1 t2) :=
  ⟨clamped_inGamut _, clamped_inGamut _⟩

/-- Encoding of one 8-bit transform output on the split path of
`SplitYCbCr` and `SplitCMYK` (`split.go`, lines 158-182):
`toGrayVal(float64(v) / 255.0)`. -/
def encodeByteChannel (v : ℕ) : ℕ := toGrayVal ((v : ℚ) / 255)

/-- The merge-path discard of the low 8 precision bits in `MergeYCbCr` and
`MergeCMYK`: `uint8(sample >> 8)` on a 16-bit sample. -/
def discardLowByte (s : ℕ) : ℕ := s / 256

/-- Per-pixel body of `MergeYCbCr` (merge source, lines 180-198): discard
each sample's low byte, then apply the external 8-bit stdlib
`color.YCbCrToRGB` transform (the parameter `t`). -/
def mergeYCbCrPixel (t : ℕ → ℕ → ℕ → ℕ × ℕ × ℕ) (s0 s1 s2 : ℕ) : ℕ × ℕ × ℕ :=
  t (discardLowByte s0) (discardLowByte s1) (discardLowByte s2)

/-- Per-pixel body of `MergeCMYK` (merge source, lines 158-177): discard
each sample's low byte, then apply the external 8-bit stdlib
`color.CMYKToRGB` transform (the parameter `t`). -/
def mergeCMYKPixel (t : ℕ → ℕ → ℕ → ℕ → ℕ × ℕ × ℕ) (s0 s1 s2 s3 : ℕ) :
    ℕ × ℕ × ℕ :=
  t (discardLowByte s0) (discardLowByte s1) (discardLowByte s2)
    (discardLowByte s3)

/-- **C4 counterexample.** The claim says the extra precision bits of every
produced 16-bit sample are zero-filled after the 8-bit transform.  On the
split path the 8-bit transform output `1` is stored as the 16-bit sample
`257`, whose low 8 bits are `1`, not `0` (the low byte replicates the high
byte rather than being zeroed). -/
theorem ycbcr_low_bits_not_zero_filled :
    encodeByteChannel 1 = 257 ∧ ¬ encodeByteChannel 1 % 256 = 0 := by
  constructor
  · unfold encodeByteChannel toGrayVal
    norm_num
    decide
  · unfold encodeByteChannel toGrayVal
    norm_num
    decide

/-- **C4 amended.** For ycbcr and cmyk on 16-bit buffers the low 8 bits of
each sample are discarded before the 8-bit transform (changing only the low
byte of any merge input sample cannot change the merge result), and each
8-bit transform output `v` is stored on the split path as the 16-bit sample
`257 * v`, whose low byte equals `v` (bit replication, not zero fill) and
which therefore round-trips exactly under the merge-path discard. -/
theorem byte_precision_paths (v : ℕ) (hv : v ≤ 255) :
    (encodeByteChannel v = 257 * v ∧ encodeByteChannel v % 256 = v ∧
      discardLowByte (encodeByteChannel v) = v) ∧
    (∀ (t : ℕ → ℕ → ℕ → ℕ × ℕ × ℕ) (s0 s0' s1 s1' s2 s2' : ℕ),
      s0 / 256 = s0' / 256 → s1 / 256 = s1' / 256 → s2 / 256 = s2' / 256 →
      mergeYCbCrPixel t s0 s1 s2 = mergeYCbCrPixel t s0' s1' s2') ∧
    (∀ (t : ℕ → ℕ → ℕ → ℕ → ℕ × ℕ × ℕ) (s0 s0' s1 s1' s2 s2' s3 s3' : ℕ),
      s0 / 256 = s0' / 256 → s1 / 256 = s1' / 256 → s2 / 256 = s2' / 256 →
      s3 / 256 = s3' / 256 →
      mergeCMYKPixel t s0 s1 s2 s3 = mergeCMYKPixel t s0' s1' s2' s3') := by
  have henc : encodeByteChannel v = 257 * v := by
    unfold encodeByteChannel toGrayVal
    have hle : (v : ℚ) / 255 ≤ 1 := by
      rw [div_le_one (by norm_num)]
      exact_mod_cast hv
    rw [if_neg (not_lt.mpr (by positivity)), if_neg (by simpa using hle)]
    have hval : (v : ℚ) / 255 * 65535 = ((257 * v : ℕ) : ℚ) := by
      push_cast
      ring
    rw [hval, Int.floor_natCast]
    exact Int.toNat_natCast _
  refine ⟨⟨henc, ?_, ?_⟩, ?_, ?_⟩
  · omega
  · unfold discardLowByte
    omega
  · intro t s0 s0' s1 s1' s2 s2' h0 h1 h2
    unfold mergeYCbCrPixel discardLowByte
    rw [h0, h1, h2]
  · intro t s0 s0' s1 s1' s2 s2' s3 s3' h0 h1 h2 h3
    unfold mergeCMYKPixel discardLowByte
    rw [h0, h1, h2, h3]

/-- Witness for `byte_precision_paths` at `v = 2` and concrete samples that
differ only in their low bytes. -/
theorem byte_precision_paths_witness :
    (2 ≤ 255 ∧ encodeByteChannel 2 = 257 * 2 ∧ encodeByteChannel 2 % 256 = 2 ∧
      discardLowByte (encodeByteChannel 2) = 2) ∧
    mergeYCbCrPixel (fun a b c => (a, b, c)) 4660 4660 4660 =
      mergeYCbCrPixel (fun a b c => (a, b, c)) 4665 4665 4665 ∧
    mergeCMYKPixel (fun a b c d => (a + d, b, c)) 4660 4660 4660 4660 =
      mergeCMYKPixel (fun a b c d => (a + d, b, c)) 4665 4665 4665 4665 :=
  ⟨⟨by norm_num, (byte_precision_paths 2 (by norm_num)).1⟩,
   (byte_precision_paths 2 (by norm_num)).2.1 _ 4660 4665 4660 4665 4660 4665
     (by norm_num) (by norm_num) (by norm_num),
   (byte_precision_paths 2 (by norm_num)).2.2 _ 4660 4665 4660 4665 4660 4665 4660 4665
     (by norm_num) (by norm_num) (by norm_num) (by norm_num)⟩

/-- A rectangle of image bounds, modelling Go's `image.Rectangle` (the
fields of `Min` and `Max` flattened). -/
structure Rect where
  minX : ℤ
  minY : ℤ
  maxX : ℤ
  maxY : ℤ
deriving DecidableEq

/-- A 16-bit grayscale channel buffer, modelling `*image.Gray16`: bounds
plus a per-coordinate sample read (`Gray16At`). -/
structure GrayImage where
  bounds : Rect
  pix : ℤ → ℤ → ℕ

/-- A premultiplied 16-bit RGBA sample, as returned by the `RGBA()` method
of Go's universal `color.Color` interface. -/
structure RGBA64 where
  r : ℕ
  g : ℕ
  b : ℕ
  a : ℕ
deriving DecidableEq

/-- A non-premultiplied 16-bit RGBA sample, modelling Go's
`color.NRGBA64`. -/
structure NRGBA64 where
  r : ℕ
  g : ℕ
  b : ℕ
  a : ℕ
deriving DecidableEq

/-- Models the Go standard library's `color.NRGBA64Model` conversion from a
premultiplied `RGBA()` sample: fully opaque and fully transparent samples
are passed through (the latter as black), otherwise each color component is
un-premultiplied as `c * 0xffff / a`.  The alpha component is preserved in
every branch. -/
def nrgba64OfColor (c : RGBA64) : NRGBA64 :=
  if c.a = 65535 then ⟨c.r, c.g, c.b, 65535⟩
  else if c.a = 0 then ⟨0, 0, 0, 0⟩
  else ⟨c.r * 65535 / c.a, c.g * 65535 / c.a, c.b * 65535 / c.a, c.a⟩

/-- Per-pixel body of `ExtractAlpha` (`split.go`, lines 195-208): convert
the source pixel to non-premultiplied `NRGBA64` and store its alpha
component as a 16-bit gray sample. -/
def extractAlphaPix (img : ℤ → ℤ → RGBA64) : ℤ → ℤ → ℕ :=
  fun x y => (nrgba64OfColor (img x y)).a

/-- Per-pixel body of `AddAlpha` (merge source, lines 202-214): convert the
merged image's pixel to non-premultiplied form (`toN`, which is
`color.NRGBA64Model.Convert` applied to whatever pixel representation the
merge produced) and overwrite only its alpha component with the alpha
buffer's sample. -/
def addAlphaPixel {π : Type} (toN : π → NRGBA64) (img : ℤ → ℤ → π)
    (alpha : ℤ → ℤ → ℕ) : ℤ → ℤ → NRGBA64 :=
  fun x y => { toN (img x y) with a := alpha x y }

/-- **C6.** A split with alpha requested followed by a merge that injects
the resulting alpha buffer restores the original per-pixel opacity exactly
at the codec's 16-bit depth: whatever color image the merge produced, after
`AddAlpha` with the buffer written by `ExtractAlpha` the output pixel's
alpha equals the source pixel's 16-bit alpha. -/
theorem alpha_roundtrip_exact (img merged : ℤ → ℤ → RGBA64) (x y : ℤ) :
    (addAlphaPixel nrgba64OfColor merged (extractAlphaPix img) x y).a =
      (img x y).a := by
  show (nrgba64OfColor (img x y)).a = (img x y).a
  unfold nrgba64OfColor
  split_ifs with h1 h2
  · exact h1.symm
  · exact h2.symm
  · rfl

/-- The expected number of merge input buffers for a color space
(`MergeChannels`, merge source lines 234-251): four for cmyk, three
otherwise, plus one when an alpha channel was requested. -/
def expectedCount (colorSpace : String) (alpha : Bool) : ℕ :=
  (if colorSpace = "cmyk" then 4 else 3) + (if alpha then 1 else 0)

/-- A zero-filled default grayscale buffer (a freshly allocated
`image.Gray16` reads as all-zero samples). -/
def zeroGray : GrayImage := ⟨⟨0, 0, 0, 0⟩, fun _ _ => 0⟩

/-- `MergeChannels` (merge source, lines 234-309) after the input buffers
have been read: validate the input count against the color space, then
require every buffer's bounds to equal the first buffer's bounds, and only
then hand the full channel slice to the space-dispatched merge function
(the parameter `mergeFn`, standing for the `switch p.ColorSpace` dispatch)
and optionally inject the trailing alpha buffer.  Each `notify.Fatal`
becomes an `Except.error` carrying the diagnostic, so no output image
exists on the error paths. -/
def mergeChannels {π : Type} (toN : π → NRGBA64) (colorSpace : String)
    (alpha : Bool) (channels : List GrayImage)
    (mergeFn : List GrayImage → ℤ → ℤ → π) :
    Except String (ℤ → ℤ → NRGBA64) :=
  if channels.length ≠ expectedCount colorSpace alpha then
    Except.error "Expected input files for --space but saw a different number"
  else if ¬ (∀ g ∈ channels, g.bounds = (channels.headD zeroGray).bounds) then
    Except.error "All input images must have the same dimensions"
  else
    let merged := mergeFn channels
    if alpha then
      Except.ok (addAlphaPixel toN merged
        ((channels.getD (channels.length - 1) zeroGray).pix))
    else
      Except.ok (fun x y => { toN (merged x y) with a := 65535 })

/-- **C5.** Merging channel buffers that do not all share identical bounds
terminates with the fatal configuration error after the buffers are loaded
and before any merge function reads or writes a pixel: the result is an
`error` (so no partial output image exists) and is identical for every
possible merge function, i.e. the merge function is never consulted. -/
theorem mergeChannels_mismatch_fatal {π : Type} (toN : π → NRGBA64)
    (colorSpace : String) (alpha : Bool) (channels : List GrayImage)
    (f g : List GrayImage → ℤ → ℤ → π)
    (hmis : ∃ gi ∈ channels, gi.bounds ≠ (channels.headD zeroGray).bounds) :
    mergeChannels toN colorSpace alpha channels f =
      mergeChannels toN colorSpace alpha channels g ∧
    ∃ msg, mergeChannels toN colorSpace alpha channels f =
      Except.error msg := by
  have hnot : ¬ (∀ gi ∈ channels, gi.bounds = (channels.headD zeroGray).bounds) := by
    obtain ⟨gi, hmem, hne⟩ := hmis
    exact fun hall => hne (hall gi hmem)
  unfold mergeChannels
  by_cases hcount : channels.length ≠ expectedCount colorSpace alpha
  · rw [if_pos hcount, if_pos hcount]
    exact ⟨rfl, _, rfl⟩
  · rw [if_neg hcount, if_neg hcount, if_pos hnot, if_pos hnot]
    exact ⟨rfl, _, rfl⟩

/-- Witness for `mergeChannels_mismatch_fatal`: two 1×1 buffers and one
2×1 buffer under "rgb" without alpha, with two distinct candidate merge
functions. -/
theorem mergeChannels_mismatch_fatal_witness :
    (∃ gi ∈ [zeroGray, zeroGray, GrayImage.mk ⟨0, 0, 2, 1⟩ fun _ _ => 0],
      gi.bounds ≠ (([zeroGray, zeroGray,
        GrayImage.mk ⟨0, 0, 2, 1⟩ fun _ _ => 0]).headD zeroGray).bounds) ∧
    mergeChannels nrgba64OfColor "rgb" false
      [zeroGray, zeroGray, GrayImage.mk ⟨0, 0, 2, 1⟩ fun _ _ => 0]
      (fun _ _ _ => ⟨0, 0, 0, 0⟩) =
    mergeChannels nrgba64OfColor "rgb" false
      [zeroGray, zeroGray, GrayImage.mk ⟨0, 0, 2, 1⟩ fun _ _ => 0]
      (fun _ _ _ => ⟨1, 1, 1, 1⟩) ∧
    ∃ msg, mergeChannels nrgba64OfColor "rgb" false
      [zeroGray, zeroGray, GrayImage.mk ⟨0, 0, 2, 1⟩ fun _ _ => 0]
      (fun _ _ _ => ⟨0, 0, 0, 0⟩) = Except.error msg := by
  have hmis : ∃ gi ∈ [zeroGray, zeroGray, GrayImage.mk ⟨0, 0, 2, 1⟩ fun _ _ => 0],
      gi.bounds ≠ (([zeroGray, zeroGray,
        GrayImage.mk ⟨0, 0, 2, 1⟩ fun _ _ => 0]).headD zeroGray).bounds := by
    refine ⟨GrayImage.mk ⟨0, 0, 2, 1⟩ fun _ _ => 0, by simp, by decide⟩
  exact ⟨hmis,
    (mergeChannels_mismatch_fatal nrgba64OfColor "rgb" false _
      (fun _ _ _ => ⟨0, 0, 0, 0⟩) (fun _ _ _ => ⟨1, 1, 1, 1⟩) hmis).1,
    (mergeChannels_mismatch_fatal nrgba64OfColor "rgb" false _
      (fun _ _ _ => ⟨0, 0, 0, 0⟩) (fun _ _ _ => ⟨1, 1, 1, 1⟩) hmis).2⟩

/-- `colorSpaceList` from the command-line source (lines 35-48): the
acceptable color spaces as lowercase names, here as character lists. -/
def colorSpaceList : List (List Char) :=
  ["cmyk".data, "hcl".data, "hsl".data, "hsluv".data, "lab".data,
   "linrgb".data, "luv".data, "rgb".data, "srgb".data, "xyy".data,
   "xyz".data, "ycbcr".data]

/-- `cleanColorSpaceName` (command-line source, lines 69-76): drop every
character that is not a letter and lowercase the rest.  The letter test and
the lowercase map are Go's `unicode.IsLetter` and `unicode.ToLower`, whose
Unicode tables live in the standard library, not in this repository; they
appear here as the external parameters `isLetter` and `toLower`. -/
def cleanColorSpaceName (isLetter : Char → Bool) (toLower : Char → Char)
    (cs : List Char) : List Char :=
  (cs.filter isLetter).map toLower

/-- The color-space validation of `ParseCommandLine` (command-line source,
lines 157-180): accept a cleaned name appearing in `colorSpaceList`
directly; otherwise, if it ends in `'a'` and the name minus that trailing
`'a'` is in the list, accept that base name with the alpha flag set;
otherwise fail, reporting the offending original argument (the
`notify.Fatalf` that formats `p.OrigColorSpace` into its message). -/
def resolveColorSpace (isLetter : Char → Bool) (toLower : Char → Char)
    (orig : List Char) : Except (List Char) (List Char × Bool) :=
  let cs := cleanColorSpaceName isLetter toLower orig
  if colorSpaceList.contains cs then Except.ok (cs, false)
  else if cs.getLast? = some 'a' ∧ colorSpaceList.contains cs.dropLast then
    Except.ok (cs.dropLast, true)
  else Except.error orig

/-- **C7.** `--space` validation, for any letter test and lowercase map
that agree with Go's `unicode.IsLetter`/`unicode.ToLower` on ASCII (which
is all the constraint the examples need; the resolve logic itself is
proved for arbitrary external functions): the name is matched after
stripping non-letters and lowercasing (so "L*a*b*" and "lAB" both clean to
"lab"); a cleaned name in the model list resolves to that model without
alpha; a cleaned name not in the list whose trailing 'a' removal is in the
list resolves to the base model with the alpha flag set; any other name is
a fatal error carrying the offending original argument. -/
theorem resolveColorSpace_spec (isLetter : Char → Bool)
    (toLower : Char → Char)
    (hAscii : ∀ c : Char, c.toNat < 128 →
      isLetter c = c.isAlpha ∧ toLower c = c.toLower) :
    (cleanColorSpaceName isLetter toLower "L*a*b*".data = "lab".data ∧
      cleanColorSpaceName isLetter toLower "lAB".data = "lab".data) ∧
    (∀ s : List Char,
      colorSpaceList.contains (cleanColorSpaceName isLetter toLower s) →
      resolveColorSpace isLetter toLower s =
        Except.ok (cleanColorSpaceName isLetter toLower s, false)) ∧
    (∀ s : List Char,
      ¬ colorSpaceList.contains (cleanColorSpaceName isLetter toLower s) →
      (cleanColorSpaceName isLetter toLower s).getLast? = some 'a' →
      colorSpaceList.contains
        (cleanColorSpaceName isLetter toLower s).dropLast →
      resolveColorSpace isLetter toLower s =
        Except.ok ((cleanColorSpaceName isLetter toLower s).dropLast, true)) ∧
    (∀ s : List Char,
      ¬ colorSpaceList.contains (cleanColorSpaceName isLetter toLower s) →
      ¬ ((cleanColorSpaceName isLetter toLower s).getLast? = some 'a' ∧
         colorSpaceList.contains
           (cleanColorSpaceName isLetter toLower s).dropLast) →
      resolveColorSpace isLetter toLower s = Except.error s) := by
  have hL := hAscii 'L' (by decide)
  have hst := hAscii '*' (by decide)
  have ha := hAscii 'a' (by decide)
  have hb := hAscii 'b' (by decide)
  have hl := hAscii 'l' (by decide)
  have hA := hAscii 'A' (by decide)
  have hB := hAscii 'B' (by decide)
  refine ⟨⟨?_, ?_⟩, fun s hin => ?_, fun s hout hlast hbase => ?_,
    fun s hout hno => ?_⟩
  · show cleanColorSpaceName isLetter toLower
      ['L', '*', 'a', '*', 'b', '*'] = "lab".data
    simp [cleanColorSpaceName, hL.1, hL.2, hst.1, ha.1, ha.2, hb.1, hb.2]
  · show cleanColorSpaceName isLetter toLower ['l', 'A', 'B'] = "lab".data
    simp [cleanColorSpaceName, hl.1, hl.2, hA.1, hA.2, hB.1, hB.2]
  · unfold resolveColorSpace
    rw [if_pos hin]
  · unfold resolveColorSpace
    rw [if_neg (by simpa using hout), if_pos ⟨hlast, hbase⟩]
  · unfold resolveColorSpace
    rw [if_neg (by simpa using hout), if_neg hno]

/-- Witness for `resolveColorSpace_spec`, instantiating the external
letter test and lowercase map with functions that agree with Go's on
ASCII: "L*a*b*" resolves to lab without alpha, "hcla" resolves to hcl
with alpha, "foo" is rejected carrying the original argument. -/
theorem resolveColorSpace_spec_witness :
    (∀ c : Char, c.toNat < 128 →
      Char.isAlpha c = c.isAlpha ∧ Char.toLower c = c.toLower) ∧
    cleanColorSpaceName Char.isAlpha Char.toLower "L*a*b*".data =
      "lab".data ∧
    resolveColorSpace Char.isAlpha Char.toLower "L*a*b*".data =
      Except.ok ("lab".data, false) ∧
    resolveColorSpace Char.isAlpha Char.toLower "hcla".data =
      Except.ok ("hcl".data, true) ∧
    resolveColorSpace Char.isAlpha Char.toLower "foo".data =
      Except.error "foo".data := by
  have hspec := resolveColorSpace_spec Char.isAlpha Char.toLower
    (fun c _ => ⟨rfl, rfl⟩)
  refine ⟨fun c _ => ⟨rfl, rfl⟩, hspec.1.1, ?_, ?_, ?_⟩
  · have h := hspec.2.1 "L*a*b*".data (by decide)
    rw [h]
    exact congrArg Except.ok (by decide)
  · have h := hspec.2.2.1 "hcla".data (by decide) (by decide) (by decide)
    rw [h]
    exact congrArg Except.ok (by decide)
  · exact hspec.2.2.2 "foo".data (by decide) (by decide)

/-- Helper for `intRange`: the `n` consecutive integers starting at `lo`. -/
def intRangeAux (lo : ℤ) : ℕ → List ℤ
  | 0 => []
  | n + 1 => lo :: intRangeAux (lo + 1) n

/-- The half-open integer interval `[lo, hi)` as a list, modelling Go's
`for v := lo; v < hi; v++` iteration over image coordinates. -/
def intRange (lo hi : ℤ) : List ℤ := intRangeAux lo (hi - lo).toNat

/-- A bank of 16-bit grayscale buffers: buffer index, then x, then y.
Models the `grays` slice allocated by `allocGrays` in `splitAny`. -/
def Grays : Type := ℕ → ℤ → ℤ → ℕ

/-- The freshly allocated buffer bank: `image.NewGray16` zero-fills. -/
def zeroGrays : Grays := fun _ _ _ => 0

/-- `grays[i].Set(x, y, v)`: store sample `v` in buffer `i` at `(x, y)`. -/
def setGray (g : Grays) (i : ℕ) (x y : ℤ) (v : ℕ) : Grays :=
  fun j u w => if j = i ∧ u = x ∧ w = y then v else g j u w

/-- The inner loop of `splitAny` (`split.go`, lines 57-59):
`for i, f := range fn(clr) { grays[i].Set(x, y, toGrayVal(f)) }`, with `k`
the index of the first remaining element. -/
def writeChannels (x y : ℤ) : Grays → ℕ → List ℚ → Grays
  | g, _, [] => g
  | g, k, v :: rest => writeChannels x y (setGray g k x y (toGrayVal v)) (k + 1) rest

/-- One pixel of `splitAny`: read the source pixel (already converted to a
`colorful.Color` by `colorful.MakeColor`), apply the model's forward
function, and encode every component into its buffer. -/
def processPixel (fn : Color → List ℚ) (img : ℤ → ℤ → Color) (g : Grays)
    (x y : ℤ) : Grays :=
  writeChannels x y g 0 (fn (img x y))

/-- One row of `splitAny` (the body of the per-row goroutine, `split.go`
lines 53-61): process the row's pixels left to right. -/
def processRow (bnds : Rect) (fn : Color → List ℚ) (img : ℤ → ℤ → Color)
    (g : Grays) (y : ℤ) : Grays :=
  (intRange bnds.minX bnds.maxX).foldl (fun g x => processPixel fn img g x y) g

/-- Processing of a list of rows in the given order.  The concurrent
goroutine fan-out of `splitAny` corresponds to executing these row bodies
in an arbitrary interleaving; since distinct rows write disjoint
coordinates, any serialization is some permutation of the row list. -/
def splitRows (bnds : Rect) (fn : Color → List ℚ) (img : ℤ → ℤ → Color)
    (g : Grays) (rows : List ℤ) : Grays :=
  rows.foldl (processRow bnds fn img) g

/-- The row list of the `for y := bnds.Min.Y; y < bnds.Max.Y` loop that
spawns the goroutines of `splitAny`. -/
def rowList (bnds : Rect) : List ℤ := intRange bnds.minY bnds.maxY

/-- The buffer bank computed by `splitAny` in program order. -/
def splitGrays (bnds : Rect) (fn : Color → List ℚ) (img : ℤ → ℤ → Color) :
    Grays :=
  splitRows bnds fn img zeroGrays (rowList bnds)

/-- Membership in `intRangeAux` is the interval `[lo, lo + n)`. -/
lemma mem_intRangeAux : ∀ (n : ℕ) (lo a : ℤ),
    a ∈ intRangeAux lo n ↔ lo ≤ a ∧ a < lo + n := by
  intro n
  induction n with
  | zero =>
    intro lo a
    rw [intRangeAux]
    simp only [List.not_mem_nil, false_iff]
    omega
  | succ n ih =>
    intro lo a
    rw [intRangeAux, List.mem_cons, ih]
    omega

/-- Membership in `intRange` is exactly the half-open interval. -/
lemma mem_intRange {lo hi a : ℤ} : a ∈ intRange lo hi ↔ lo ≤ a ∧ a < hi := by
  rw [intRange, mem_intRangeAux]
  omega

/-- Pointwise effect of the channel-writing loop: buffer `j` at `(u, w)`
holds the encoded component `j - k` if `(u, w)` is the written pixel and
`j` lies in the written index window, and is untouched otherwise. -/
lemma writeChannels_apply (x y : ℤ) (vs : List ℚ) :
    ∀ (g : Grays) (k j : ℕ) (u w : ℤ),
    writeChannels x y g k vs j u w =
      if u = x ∧ w = y ∧ k ≤ j ∧ j < k + vs.length then
        toGrayVal (vs.getD (j - k) 0)
      else g j u w := by
  induction vs with
  | nil =>
    intro g k j u w
    rw [writeChannels, if_neg]
    simp only [List.length_nil]
    omega
  | cons v rest ih =>
    intro g k j u w
    rw [writeChannels, ih]
    simp only [setGray, List.length_cons]
    by_cases hu : u = x
    · subst hu
      by_cases hw : w = y
      · subst hw
        simp only [eq_self_iff_true, true_and, and_true]
        split_ifs with h1 h2 h3 h4 h5
        · congr 1
          have hidx : j - k = j - (k + 1) + 1 := by omega
          rw [hidx, List.getD_cons_succ]
        · exfalso
          omega
        · subst h3
          simp
        · exfalso
          omega
        · exfalso
          omega
        · rfl
      · rw [if_neg (fun h => hw h.2.1), if_neg (fun h => hw h.2.2),
          if_neg (fun h => hw h.2.1)]
    · rw [if_neg (fun h => hu h.1), if_neg (fun h => hu h.2.1),
        if_neg (fun h => hu h.1)]

/-- Pointwise effect of processing the pixels at positions `xs` of row
`y`: a coordinate is written iff it lies on the row at a processed
position and its buffer index is below the channel count there. -/
lemma foldl_pixels_apply (fn : Color → List ℚ) (img : ℤ → ℤ → Color)
    (y : ℤ) (xs : List ℤ) :
    ∀ (g : Grays) (j : ℕ) (u w : ℤ),
    (xs.foldl (fun g x => processPixel fn img g x y) g) j u w =
      if w = y ∧ u ∈ xs ∧ j < (fn (img u y)).length then
        toGrayVal ((fn (img u y)).getD j 0)
      else g j u w := by
  induction xs with
  | nil =>
    intro g j u w
    rw [List.foldl_nil, if_neg]
    rintro ⟨-, h, -⟩
    exact absurd h (List.not_mem_nil u)
  | cons x xs ih =>
    intro g j u w
    rw [List.foldl_cons, ih]
    simp only [processPixel]
    rw [writeChannels_apply]
    simp only [List.mem_cons, Nat.zero_add, Nat.sub_zero, Nat.zero_le,
      true_and]
    by_cases hw : w = y <;> by_cases hux : u = x <;>
      by_cases hmem : u ∈ xs <;>
      by_cases hlen : j < (fn (img u y)).length <;>
      simp_all

/-- Pointwise effect of processing a list of rows: a coordinate is written
iff its row is in the list, its column is within the row interval, and its
buffer index is below the channel count at that pixel. -/
lemma splitRows_apply (bnds : Rect) (fn : Color → List ℚ)
    (img : ℤ → ℤ → Color) (rows : List ℤ) :
    ∀ (g : Grays) (j : ℕ) (u w : ℤ),
    splitRows bnds fn img g rows j u w =
      if w ∈ rows ∧ u ∈ intRange bnds.minX bnds.maxX ∧
          j < (fn (img u w)).length then
        toGrayVal ((fn (img u w)).getD j 0)
      else g j u w := by
  induction rows with
  | nil =>
    intro g j u w
    simp only [splitRows, List.foldl_nil]
    rw [if_neg]
    rintro ⟨h, -, -⟩
    exact absurd h (List.not_mem_nil w)
  | cons r rows ih =>
    intro g j u w
    have hstep : splitRows bnds fn img g (r :: rows) =
        splitRows bnds fn img (processRow bnds fn img g r) rows := by
      simp [splitRows]
    rw [hstep, ih]
    simp only [processRow]
    rw [foldl_pixels_apply]
    simp only [List.mem_cons]
    by_cases hw : w = r <;> by_cases hmem : w ∈ rows <;>
      by_cases hx : u ∈ intRange bnds.minX bnds.maxX <;>
      by_cases hlen : j < (fn (img u w)).length <;>
      simp_all

/-- **C8.** The concurrent per-row split pipeline computes the same buffers
as the sequential per-pixel definition: executing the row bodies of
`splitAny` in any order (any permutation of the program's row list) yields
exactly the buffers of the in-order run, and every in-bounds output pixel
of buffer `j` holds the encoded component `j` of the model's forward
function applied to the source pixel. -/
theorem splitAny_row_order_independent (bnds : Rect) (fn : Color → List ℚ)
    (img : ℤ → ℤ → Color) (rows : List ℤ)
    (hperm : rows.Perm (rowList bnds)) (j : ℕ) (u w : ℤ)
    (hu : bnds.minX ≤ u ∧ u < bnds.maxX)
    (hw : bnds.minY ≤ w ∧ w < bnds.maxY)
    (hj : j < (fn (img u w)).length) :
    splitRows bnds fn img zeroGrays rows = splitGrays bnds fn img ∧
    splitGrays bnds fn img j u w = toGrayVal ((fn (img u w)).getD j 0) := by
  constructor
  · funext i x y
    unfold splitGrays rowList
    rw [splitRows_apply, splitRows_apply]
    by_cases hcond : y ∈ intRange bnds.minY bnds.maxY ∧
        x ∈ intRange bnds.minX bnds.maxX ∧ i < (fn (img x y)).length
    · rw [if_pos ⟨hperm.mem_iff.mpr hcond.1, hcond.2⟩, if_pos hcond]
    · rw [if_neg (fun hc => hcond ⟨hperm.mem_iff.mp hc.1, hc.2⟩),
        if_neg hcond]
  · unfold splitGrays rowList
    rw [splitRows_apply]
    rw [if_pos ⟨mem_intRange.mpr hw, mem_intRange.mpr hu, hj⟩]

/-- Witness for `splitAny_row_order_independent`: a 1×2 image processed
with its two rows swapped, a one-channel forward function, checked at the
origin. -/
theorem splitAny_row_order_independent_witness :
    (([1, 0] : List ℤ).Perm (rowList ⟨0, 0, 1, 2⟩) ∧
      (0 : ℤ) ≤ 0 ∧ (0 : ℤ) < 1 ∧ (0 : ℤ) ≤ 0 ∧ (0 : ℤ) < 2 ∧
      0 < ((fun _ : Color => [(1 : ℚ) / 2]) (Color.mk 0 0 0)).length) ∧
    splitRows ⟨0, 0, 1, 2⟩ (fun _ => [(1 : ℚ) / 2]) (fun _ _ => Color.mk 0 0 0)
      zeroGrays [1, 0] =
      splitGrays ⟨0, 0, 1, 2⟩ (fun _ => [(1 : ℚ) / 2]) (fun _ _ => Color.mk 0 0 0) ∧
    splitGrays ⟨0, 0, 1, 2⟩ (fun _ => [(1 : ℚ) / 2]) (fun _ _ => Color.mk 0 0 0)
      0 0 0 =
      toGrayVal (((fun _ : Color => [(1 : ℚ) / 2]) ((fun _ _ => Color.mk 0 0 0)
        (0 : ℤ) (0 : ℤ))).getD 0 0) := by
  have hperm : ([1, 0] : List ℤ).Perm (rowList ⟨0, 0, 1, 2⟩) := by
    have hval : rowList ⟨0, 0, 1, 2⟩ = [0, 1] := by decide
    rw [hval]
    exact List.Perm.swap 0 1 []
  refine ⟨⟨hperm, by norm_num, by norm_num, by norm_num, by norm_num, by simp⟩, ?_⟩
  exact splitAny_row_order_independent ⟨0, 0, 1, 2⟩ (fun _ => [(1 : ℚ) / 2])
    (fun _ _ => Color.mk 0 0 0) [1, 0] hperm 0 0 0
    ⟨by norm_num, by norm_num⟩ ⟨by norm_num, by norm_num⟩ (by simp)

/-- An `ImageInfo` from `split.go` (lines 16-19): a channel name together
with the grayscale image holding that channel. -/
structure ImageInfo where
  Name : String
  Image : ℤ → ℤ → ℕ

/-- The result assembly of `splitAny` (`split.go`, lines 64-68):
`result[i].Name = names[i]; result[i].Image = grays[i]`, with `i` the
index of the first remaining name. -/
def namedBuffers (g : Grays) : ℕ → List String → List ImageInfo
  | _, [] => []
  | i, nm :: rest => ⟨nm, fun x y => g i x y⟩ :: namedBuffers g (i + 1) rest

/-- `splitAny` (`split.go`, lines 45-70): run the per-row pipeline over the
whole image and pair each output buffer with its channel name. -/
def splitAny (bnds : Rect) (names : List String) (fn : Color → List ℚ)
    (img : ℤ → ℤ → Color) : List ImageInfo :=
  namedBuffers (splitGrays bnds fn img) 0 names

/-- `SplitXyy` (`split.go`, lines 102-108): split into x, y, Y channels,
with the external `colorful.Xyy` forward conversion as the parameter
`xyyFwd`.  The name list passed to `splitAny` is `["x", "y", "YY"]`: the
source deliberately names the Y output "YY" in case the filesystem is
case-insensitive. -/
def SplitXyy (xyyFwd : Color → ℚ × ℚ × ℚ) (bnds : Rect)
    (img : ℤ → ℤ → Color) : List ImageInfo :=
  splitAny bnds ["x", "y", "YY"]
    (fun clr => [(xyyFwd clr).1, (xyyFwd clr).2.1, (xyyFwd clr).2.2]) img

/-- **C9 counterexample.** The claim says the xyy split emits buffers named
x, y, Y.  At a concrete conversion and 1×1 image the emitted names are
`["x", "y", "YY"]`, not `["x", "y", "Y"]`: the third output name is "YY". -/
theorem splitXyy_names_counterexample :
    (SplitXyy (fun _ => (0, 0, 0)) ⟨0, 0, 1, 1⟩
        (fun _ _ => Color.mk 0 0 0)).map ImageInfo.Name ≠ ["x", "y", "Y"] := by
  have hnames : (SplitXyy (fun _ => (0, 0, 0)) ⟨0, 0, 1, 1⟩
      (fun _ _ => Color.mk 0 0 0)).map ImageInfo.Name = ["x", "y", "YY"] := rfl
  rw [hnames]
  decide

/-- **C9 amended.** Splitting under xyy emits exactly three channel
buffers, and their output names are `"x"`, `"y"`, `"YY"` in that order —
the Y channel is written under the name "YY" (so that its output file does
not collide with the "y" channel's on a case-insensitive filesystem). -/
theorem splitXyy_names (xyyFwd : Color → ℚ × ℚ × ℚ) (bnds : Rect)
    (img : ℤ → ℤ → Color) :
    (SplitXyy xyyFwd bnds img).map ImageInfo.Name = ["x", "y", "YY"] ∧
    (SplitXyy xyyFwd bnds img).length = 3 :=
  ⟨rfl, rfl⟩

/-- The image computed by `MergeHCL` from the channel slice it is handed:
the per-pixel body reads only `imgs[0]`, `imgs[1]` and `imgs[2]`. -/
def mergeHCLImage (hclWhiteRef : ℚ → ℚ → ℚ → ℚ × ℚ × ℚ → Color)
    (wref : ℚ × ℚ × ℚ) (chans : List GrayImage) : ℤ → ℤ → Color :=
  fun x y => mergeHCLPixel hclWhiteRef wref
    ((chans.getD 0 zeroGray).pix x y)
    ((chans.getD 1 zeroGray).pix x y)
    ((chans.getD 2 zeroGray).pix x y)

/-- The alpha path of `MergeChannels` for hcl (merge source, lines 273-274
and 299-302): the full channel slice goes to `MergeHCL`, then `AddAlpha`
injects `channels[len(channels)-1]`. -/
def mergeHCLWithAlpha (hclWhiteRef : ℚ → ℚ → ℚ → ℚ × ℚ × ℚ → Color)
    (wref : ℚ × ℚ × ℚ) (toN : Color → NRGBA64) (chans : List GrayImage) :
    ℤ → ℤ → NRGBA64 :=
  addAlphaPixel toN (mergeHCLImage hclWhiteRef wref chans)
    ((chans.getD (chans.length - 1) zeroGray).pix)

/-- **C10.** In a merge with alpha, the RGB components of every output
pixel depend only on the three color channel buffers: the trailing alpha
buffer is part of the slice handed to the merge function but is never read
by it (replacing it changes nothing in the merged image), and the alpha
injection leaves the converted non-premultiplied RGB components of each
pixel unchanged, overwriting only the alpha component with the alpha
buffer's sample. -/
theorem merge_alpha_noninterference
    (hclWhiteRef : ℚ → ℚ → ℚ → ℚ × ℚ × ℚ → Color) (wref : ℚ × ℚ × ℚ)
    (toN : Color → NRGBA64) (c0 c1 c2 ca ca' : GrayImage) (x y : ℤ) :
    mergeHCLImage hclWhiteRef wref [c0, c1, c2, ca] =
      mergeHCLImage hclWhiteRef wref [c0, c1, c2, ca'] ∧
    (mergeHCLWithAlpha hclWhiteRef wref toN [c0, c1, c2, ca] x y).r =
      (toN (mergeHCLImage hclWhiteRef wref [c0, c1, c2, ca] x y)).r ∧
    (mergeHCLWithAlpha hclWhiteRef wref toN [c0, c1, c2, ca] x y).g =
      (toN (mergeHCLImage hclWhiteRef wref [c0, c1, c2, ca] x y)).g ∧
    (mergeHCLWithAlpha hclWhiteRef wref toN [c0, c1, c2, ca] x y).b =
      (toN (mergeHCLImage hclWhiteRef wref [c0, c1, c2, ca] x y)).b ∧
    (mergeHCLWithAlpha hclWhiteRef wref toN [c0, c1, c2, ca] x y).a =
      ca.pix x y :=
  ⟨rfl, rfl, rfl, rfl, rfl⟩

end ColorChannels
